import Mathlib

/-!
Shallow embedding of the connection engine of the groove-net HTTP server
(C sources under `src/`): the worker's ready queue and fd wait table
(`src/coroutine/coroutine.c`), the close sequence and dispatcher
(`src/connection_manager/connection_manager.c`), the async I/O primitives
(`src/connection_manager/async.c`), the HTTP parser and request lifecycle
(`src/request_handler/request_handler.c`, `request_handler.h`), and the
static-file middleware with its HTTP utilities
(`middlewares/handle_static_file_middleware.c`, `middlewares/http_utils.c`).

Machine integers are modelled as `Nat`/`Int`; coroutines are identified by
`Nat` ids; the epoll registration set is a `Finset Int`; clock readings are
rationals in milliseconds.
-/

set_option maxRecDepth 4000

namespace HttpServer

/-! ## Constants from the C headers -/

/-- `FD_SETSIZE` on Linux, the bound used by `cm_close_connection` and the
`fd_table` in `coroutine.c`. -/
def FD_SETSIZE : Nat := 1024

/-- `#define MAX_HEADERS 100` from `request_handler.h`. -/
def MAX_HEADERS : Nat := 100

/-- `#define MAX_LINE_LEN 8192` from `request_handler.h`. -/
def MAX_LINE_LEN : Nat := 8192

/-! ## Ready queue (`coroutine.c`, `add_to_ready` / `pop_ready_head`)

Coroutines are identified by `Nat` ids.  The ready queue is the list of
queued coroutines, head first (`worker->ready_head` is the list head,
`worker->ready_tail` the last element). -/

/-- `w->policy`: `RDY_FIFO` or `RDY_LIFO` (enum in `connection_manager.h`). -/
inductive Policy where
  | fifo
  | lifo
deriving DecidableEq, Repr

/-- `add_to_ready(worker, co)`: if the queue is empty the sole element is
`co`; under `RDY_LIFO` push at the front; under `RDY_FIFO` append at the
tail.  (The element type is a parameter: claims use it both for bare
coroutine ids and for full coroutine records.) -/
def add_to_ready {A : Type} (policy : Policy) (q : List A) (co : A) : List A :=
  match q with
  | [] => [co]
  | _ :: _ =>
    match policy with
    | .lifo => co :: q
    | .fifo => q ++ [co]

/-- `pop_ready_head(worker)`: pop the head of the ready queue, or `none`
when the queue is empty. -/
def pop_ready_head {A : Type} (q : List A) : Option (A × List A) :=
  match q with
  | [] => none
  | co :: rest => some (co, rest)

/-- Inserting a batch of coroutines one by one, in batch order, as one
`wake_fd` call does for the waiter list it detached. -/
def enqueue_batch {A : Type} (policy : Policy) (q : List A) (batch : List A) :
    List A :=
  batch.foldl (add_to_ready policy) q

/-- The order in which `schedule(worker)` dequeues the queue's coroutines:
`pop_ready_head` repeatedly, i.e. exactly the list order. -/
def drain_order {A : Type} (q : List A) : List A := q

/-! ## The close sequence (`connection_manager.c`, `cm_close_connection`)

`cm_close_connection(w, fd)` returns at once when `fd < 0 || fd >= FD_SETSIZE`;
otherwise it performs `epoll_ctl(DEL)`, then `shutdown(SHUT_WR)`, then
`close`.  The notifier state is the set of fds registered with the worker's
epoll instance; the syscalls performed are recorded as a trace. -/

inductive CloseStep where
  | epollCtlDel (fd : Int)
  | shutdownWr (fd : Int)
  | closeFd (fd : Int)
deriving DecidableEq, Repr

/-- `cm_close_connection`: returns the trace of teardown syscalls in the
order performed and the new set of epoll-registered fds. -/
def cm_close_connection (registered : Finset Int) (fd : Int) :
    List CloseStep × Finset Int :=
  if fd < 0 ∨ (FD_SETSIZE : Int) ≤ fd then
    ([], registered)
  else
    ([.epollCtlDel fd, .shutdownWr fd, .closeFd fd], registered.erase fd)

/-- An epoll readiness event for `fd` can be delivered to the worker loop
only while `fd` is registered with the worker's epoll instance. -/
def can_deliver (registered : Finset Int) (fd : Int) : Prop :=
  fd ∈ registered

instance (registered : Finset Int) (fd : Int) :
    Decidable (can_deliver registered fd) := by
  unfold can_deliver; infer_instance

/-- Registration changes the worker loop can later perform on the notifier:
`epoll_ctl(ADD)` for a newly accepted fd, `epoll_ctl(DEL)` from a later
close. -/
inductive NotifierOp where
  | add (fd : Int)
  | del (fd : Int)
deriving DecidableEq, Repr

def apply_op (registered : Finset Int) : NotifierOp → Finset Int
  | .add fd => insert fd registered
  | .del fd => registered.erase fd

def apply_ops (registered : Finset Int) (ops : List NotifierOp) : Finset Int :=
  ops.foldl apply_op registered

/-! ## MIME table (`http_utils.c`, `get_mime_type`)

The C table `mime_types[]` holds 14 entries, but entry index 9 is the
`{NULL, "application/octet-stream"}` sentinel; the lookup loop runs while
`mime_types[i].ext != NULL`, so the `.svg`, `.ico`, `.json` and `.map`
entries after the sentinel are unreachable.  On no match (or a path with no
dot) the function returns `mime_types[9].type`. -/

/-- The C array `mime_types[]`, in source order; `none` is the `NULL`
sentinel's `ext`. -/
def mime_types : List (Option (List Char) × String) :=
  [(some ".html".data, "text/html"), (some ".htm".data, "text/html"),
   (some ".css".data, "text/css"), (some ".js".data, "application/javascript"),
   (some ".png".data, "image/png"), (some ".jpg".data, "image/jpeg"),
   (some ".jpeg".data, "image/jpeg"), (some ".gif".data, "image/gif"),
   (some ".txt".data, "text/plain"), (none, "application/octet-stream"),
   (some ".svg".data, "image/svg+xml"), (some ".ico".data, "image/x-icon"),
   (some ".json".data, "application/json"), (some ".map".data, "application/json")]

/-- `mime_types[9].type`, the value returned on lookup failure. -/
def mime_default : String := "application/octet-stream"

/-- `strrchr(path, '.')` as used by `get_mime_type`: the suffix of `path`
starting at the LAST `'.'`, or `none` when there is no dot. -/
def strrchr_dot : List Char → Option (List Char)
  | [] => none
  | c :: rest =>
    match strrchr_dot rest with
    | some s => some s
    | none => if c = '.' then some (c :: rest) else none

/-- The lookup loop `for (i = 0; mime_types[i].ext != NULL; i++)`: stop at
the sentinel and return `mime_types[9].type`; otherwise compare `ext`
against each entry in order. -/
def mime_lookup (table : List (Option (List Char) × String)) (ext : List Char) :
    String :=
  match table with
  | [] => mime_default
  | (none, _) :: _ => mime_default
  | (some e, t) :: rest => if ext = e then t else mime_lookup rest ext

/-- `get_mime_type(path)` from `http_utils.c`. -/
def get_mime_type (path : List Char) : String :=
  match strrchr_dot path with
  | none => mime_default
  | some ext => mime_lookup mime_types ext

/-- Modelled from the spec side of the claim for comparison: the
nine-extension map (`.html .htm .css .js .png .jpg .jpeg .gif .txt`) with
`application/octet-stream` for everything else. -/
def mime_spec_table : List (List Char × String) :=
  [(".html".data, "text/html"), (".htm".data, "text/html"),
   (".css".data, "text/css"), (".js".data, "application/javascript"),
   (".png".data, "image/png"), (".jpg".data, "image/jpeg"),
   (".jpeg".data, "image/jpeg"), (".gif".data, "image/gif"),
   (".txt".data, "text/plain")]

def mime_spec_lookup (ext : List Char) : String :=
  match mime_spec_table.find? (fun p => ext = p.1) with
  | some p => p.2
  | none => "application/octet-stream"

def mime_spec (path : List Char) : String :=
  match strrchr_dot path with
  | none => "application/octet-stream"
  | some ext => mime_spec_lookup ext

/-! ## `recv_async` with timeout (`connection_manager/async.c`, lines 94-133)

The environment is modelled as the sequence of outcomes of the successive
`recv` calls the loop makes; a `wouldBlock` outcome also records the
`CLOCK_MONOTONIC` reading (in milliseconds, as a rational, mirroring the
`double elapsed` computation) the code takes right after it.  `start` is
the clock reading captured once at function entry and never updated. -/

inductive RecvResult where
  | ok (n : Nat)
  | wouldBlock
  | err
deriving DecidableEq, Repr

structure RecvAttempt where
  res : RecvResult
  now : ℚ
deriving DecidableEq, Repr

inductive RecvOutcome where
  | bytes (n : Nat)
  | timeout
  | ioError
deriving DecidableEq, Repr

/-- The `while (1)` loop of `recv_async`.  Each list element is one `recv`
call's outcome; `none` means the modelled attempt sequence ran out while
the loop was still going (the coroutine is parked).  On would-block the
elapsed time against the `start` captured at entry decides between
`ETIMEDOUT` and `coroutine_yield(worker, socket, WAIT_READ)` followed by a
retry with the SAME `start`. -/
def recv_async (start : ℚ) (timeout_ms : ℤ) :
    List RecvAttempt → Option RecvOutcome
  | [] => none
  | a :: rest =>
    match a.res with
    | .ok n => some (.bytes n)
    | .err => some .ioError
    | .wouldBlock =>
      if (timeout_ms : ℚ) ≤ a.now - start then some .timeout
      else recv_async start timeout_ms rest

/-- A run of `recv_async` returns `Timeout` precisely when some `recv`
attempt would block with at least `timeout_ms` elapsed since `start`, and
every earlier attempt also would block but with less than `timeout_ms`
elapsed. -/
def timeout_run (start : ℚ) (timeout_ms : ℤ) (attempts : List RecvAttempt) : Prop :=
  ∃ pre a post, attempts = pre ++ a :: post ∧
    (∀ b ∈ pre, b.res = RecvResult.wouldBlock ∧ b.now - start < (timeout_ms : ℚ)) ∧
    a.res = RecvResult.wouldBlock ∧ (timeout_ms : ℚ) ≤ a.now - start

/-! ## `send_async` (`connection_manager/async.c`, lines 139-171)

The C function has return type `void`: its only caller-visible value is
`()`.  The internal run is modelled explicitly: the cursor `bytes_sent`,
the number of `coroutine_yield(worker, socket, WAIT_WRITE)` calls, and why
the loop ended. -/

inductive SendResult where
  | sent (n : Nat)
  | wouldBlock
  | permError
deriving DecidableEq, Repr

inductive SendExit where
  | completed
  | aborted
  | zeroBreak
  | parked
deriving DecidableEq, Repr

structure SendRun where
  sent : Nat
  yields : Nat
  exit : SendExit
deriving DecidableEq, Repr

/-- The `while (bytes_sent < length)` loop of `send_async`.  Each list
element is one `send` call's return: `sent n` for a return value `n ≥ 0`
(`n = 0` hits the final `else break`), `wouldBlock` for `-1` with
`EAGAIN`/`EWOULDBLOCK`, `permError` for `-1` with any other `errno`
(`perror` then `return`).  `parked` records that the modelled attempt
sequence ran out while the loop was still going. -/
def send_async_loop (len : Nat) (cursor yields : Nat) :
    List SendResult → SendRun
  | [] =>
    if len ≤ cursor then ⟨cursor, yields, .completed⟩
    else ⟨cursor, yields, .parked⟩
  | e :: rest =>
    if len ≤ cursor then ⟨cursor, yields, .completed⟩
    else
      match e with
      | .sent n =>
        if 0 < n then send_async_loop len (cursor + n) yields rest
        else ⟨cursor, yields, .zeroBreak⟩
      | .wouldBlock => send_async_loop len cursor (yields + 1) rest
      | .permError => ⟨cursor, yields, .aborted⟩

/-- `send_async(socket, buffer, length, flags, worker)` as seen by its
caller: the C return type is `void`, so the returned value is always `()`,
whatever the run did. -/
def send_async (len : Nat) (evs : List SendResult) : Unit :=
  let _ := send_async_loop len 0 0 evs
  ()

/-- The environment is well formed when every successful `send` returns at
most the number of bytes the loop asked for (`remaining_length`). -/
def send_env_valid (len : Nat) : Nat → List SendResult → Prop
  | _, [] => True
  | cursor, .sent n :: rest => n ≤ len - cursor ∧ send_env_valid len (cursor + n) rest
  | cursor, .wouldBlock :: rest => send_env_valid len cursor rest
  | _, .permError :: _ => True

/-! ## Wait table and `wake_fd` (`coroutine.c`, lines 111-183)

`fd_table[fd]` is the list of `FdNode`s for `fd`, most recently parked
first (`add_to_fd_table` pushes at the head).  `wake_fd` detaches the whole
list, then for each waiter clears its fd record (`co->fd = -1;
co->wait_type = 0;`, and `WAIT_READ = 0` in the `WaitType` enum) and calls
`add_to_ready`. -/

/-- `WaitType` from `coroutine.h`: `WAIT_READ = 0`, `WAIT_WRITE = 1`. -/
inductive WaitType where
  | read
  | write
deriving DecidableEq, Repr

structure Coro where
  id : Nat
  fd : Int
  wait_type : WaitType
deriving DecidableEq, Repr

structure WorkerSt where
  fd_table : Int → List Coro
  ready : List Coro
  policy : Policy

/-- `co->fd = -1; co->wait_type = 0;` performed on each waiter as
`wake_fd` walks the detached list. -/
def reset_coro (co : Coro) : Coro :=
  { co with fd := -1, wait_type := .read }

/-- `wake_fd(worker, fd)`: guard `fd < 0 || fd >= FD_SETSIZE`, detach the
entire waiter list (leaving `fd_table[fd]` empty), then push every waiter,
whatever its recorded wait direction, onto the ready queue in list order
after resetting its fd record. -/
def wake_fd (w : WorkerSt) (fd : Int) : WorkerSt :=
  if fd < 0 ∨ (FD_SETSIZE : Int) ≤ fd then w
  else
    let head := w.fd_table fd
    let w' : WorkerSt :=
      { w with fd_table := fun g => if g = fd then [] else w.fd_table g }
    head.foldl
      (fun st co => { st with ready := add_to_ready st.policy st.ready (reset_coro co) })
      w'

/-- One epoll event as seen by `worker_loop`: the fd and the flag bits it
inspects (`EPOLLRDHUP`, `EPOLLIN`, `EPOLLOUT`). -/
structure EpollEvent where
  fd : Int
  rdhup : Bool
  readable : Bool
  writable : Bool
deriving DecidableEq, Repr

inductive DispatchAction where
  | closed
  | woke
  | ignored
deriving DecidableEq, Repr

/-- `worker_loop`'s dispatch for an event on a client fd (not the notify
pipe): `EPOLLRDHUP` → close sequence; else `EPOLLIN` or `EPOLLOUT` →
`wake_fd(w, fd)`.  No wait direction of any parked task is consulted. -/
def dispatch_client_event (w : WorkerSt) (ev : EpollEvent) :
    WorkerSt × DispatchAction :=
  if ev.rdhup then (w, .closed)
  else if ev.readable || ev.writable then (wake_fd w ev.fd, .woke)
  else (w, .ignored)

/-! ## Round-robin dispatch (`connection_manager.c`, `cm_dispatch_connection`)

`int target = next_worker_idx % total_workers; next_worker_idx++;` — the
`k`-th accepted connection after the index holds `s` goes to worker
`(s + k) % W`. -/

/-- The worker chosen for the `k`-th dispatch when the round-robin counter
starts at `s`. -/
def dispatch_target (s W k : Nat) : Nat := (s + k) % W

/-- The targets of `N` consecutive dispatches. -/
def dispatch_targets (s W N : Nat) : List Nat :=
  (List.range N).map (dispatch_target s W)

/-- How many of `N` consecutive dispatches worker `w` receives. -/
def rr_count (s W w N : Nat) : Nat :=
  (List.range N).countP (fun k => dispatch_target s W k == w)

/-! ## HTTP utilities (`http_utils.c`)

Responses built by `send_error`, `send_redirect` and `serve_file` are
modelled as records of the status line and the headers the `snprintf`
templates emit. -/

/-- `get_http_reason(code)` from `http_utils.c`. -/
def get_http_reason (code : Nat) : String :=
  if code = 400 then "Bad Request"
  else if code = 403 then "Forbidden"
  else if code = 404 then "Not Found"
  else if code = 405 then "Method Not Allowed"
  else if code = 500 then "Internal Server Error"
  else "Unknown Error"

/-- The response `send_error(client_fd, code, msg, keep_alive, w)` writes:
`HTTP/1.1 <code> <reason>`, `Content-Type: text/plain`,
`Content-Length: <len(body)>`, `Connection: keep-alive|close`, body
`msg` (or empty) plus a newline when `msg` is non-NULL and non-empty. -/
structure ErrorResponse where
  status : Nat
  reason : String
  body : String
  contentLength : Nat
  connection : String
deriving DecidableEq, Repr

def send_error (code : Nat) (msg : Option String) (keep_alive : Bool) :
    ErrorResponse :=
  let body_content := msg.getD ""
  let newline :=
    match msg with
    | some m => if 0 < m.length then "\n" else ""
    | none => ""
  { status := code
    reason := get_http_reason code
    body := body_content ++ newline
    contentLength := body_content.length + newline.length
    connection := if keep_alive then "keep-alive" else "close" }

/-- What the static-file middleware sends on a given request: an error
response, a `301 Moved Permanently` redirect (headers `Location:
<location>`, `Content-Length: 0`, `Connection: <connection>`), or a `200
OK` file response (`serve_file`, which sends the body via
`sendfile_async` unless the method is HEAD). -/
inductive MwResponse where
  | errorResp (e : ErrorResponse)
  | redirect (location : String) (contentLength : Nat) (connection : String)
  | serveFile (path : String) (size : Nat) (mime : String) (headOnly : Bool)
      (connection : String)
deriving DecidableEq, Repr

/-- `send_redirect(client_fd, old_uri, keep_alive, w)`: 301 with
`Location` = `old_uri` + `/` and `Content-Length: 0`. -/
def send_redirect (old_uri : String) (keep_alive : Bool) : MwResponse :=
  .redirect (old_uri ++ "/") 0 (if keep_alive then "keep-alive" else "close")

/-- `serve_file(client_fd, path, file_size, method, keep_alive, w)`. -/
def serve_file (path : String) (size : Nat) (method : String)
    (keep_alive : Bool) : MwResponse :=
  .serveFile path size (get_mime_type path.data) (method = "HEAD")
    (if keep_alive then "keep-alive" else "close")

/-! ## Static-file middleware (`handle_static_file_middleware.c`)

`stat(2)` results are modelled as `isDir`/`isReg` mode bits plus
`st_size`; the filesystem is a map from path strings to stat results
(`none` = `stat` failed). -/

structure FileStat where
  isDir : Bool
  isReg : Bool
  size : Nat
deriving DecidableEq, Repr

/-- `strstr(req->uri, "..") != NULL`. -/
def contains_dotdot (uri : String) : Bool :=
  decide ("..".data <:+: uri.data)

/-- The full path the middleware builds:
`uri == "/"` is replaced by `/index.html`, then `"./public" + uri` when
the uri starts with `/`, else `"./public/" + uri`. -/
def static_path (uri : String) : String :=
  let u := if uri = "/" then "/index.html" else uri
  if u.data.head? = some '/' then "./public" ++ u else "./public/" ++ u

/-- The SPA fallback at the end of `handle_static_file_middleware`: for a
uri without a dot, serve `./public/index.html` when it stats, else 404. -/
def spa_fallback (fs : String → Option FileStat) (method uri : String)
    (keep_alive : Bool) : MwResponse :=
  match strrchr_dot uri.data with
  | none =>
    match fs "./public/index.html" with
    | some st => serve_file "./public/index.html" st.size method keep_alive
    | none => .errorResp (send_error 404 none keep_alive)
  | some _ => .errorResp (send_error 404 none keep_alive)

/-- `handle_static_file_middleware(req, keep_alive, w, client_fd)`. -/
def handle_static_file_middleware (fs : String → Option FileStat)
    (method uri : String) (keep_alive : Bool) : MwResponse :=
  if method ≠ "GET" ∧ method ≠ "HEAD" then
    .errorResp (send_error 405 none keep_alive)
  else if contains_dotdot uri then
    .errorResp (send_error 400 none keep_alive)
  else
    let path := static_path uri
    match fs path with
    | some st =>
      if st.isDir then
        if 0 < uri.length ∧ uri.data.getLast? ≠ some '/' then
          send_redirect uri keep_alive
        else
          let path2 := path ++ "/index.html"
          match fs path2 with
          | none => .errorResp (send_error 404 none keep_alive)
          | some st2 =>
            if st2.isReg then serve_file path2 st2.size method keep_alive
            else spa_fallback fs method uri keep_alive
      else if st.isReg then serve_file path st.size method keep_alive
      else spa_fallback fs method uri keep_alive
    | none => spa_fallback fs method uri keep_alive

/-! ## Header parsing and the header-count limit
(`request_handler.c`, `parse_header_field`; `request-handler/entry.c`)

The header-section state machine is modelled one full line at a time
(`read_line` has already stripped the CRLF).  `parse_header_field` checks
`header_count >= MAX_HEADERS` FIRST, before looking for the colon. -/

/-- `isspace(3)` for the ASCII values the C code can see. -/
def isspace_c (c : Char) : Bool :=
  c = ' ' || c = '\t' || c = '\n' || c = Char.ofNat 11 || c = Char.ofNat 12 ||
    c = '\r'

/-- `strchr(line, ':')`: split the line at the FIRST colon, returning the
key (before it) and the raw remainder (after it); `none` when the line has
no colon. -/
def strchr_colon : List Char → Option (List Char × List Char)
  | [] => none
  | c :: rest =>
    if c = ':' then some ([], rest)
    else
      match strchr_colon rest with
      | some (k, v) => some (c :: k, v)
      | none => none

/-- Skip leading whitespace of the value (the `while isspace value++`
loop). -/
def skip_leading (l : List Char) : List Char := l.dropWhile isspace_c

/-- Trim trailing whitespace of the value (the `while val_len > 0 &&
isspace(value[val_len-1])` loop). -/
def trim_trailing (l : List Char) : List Char :=
  (l.reverse.dropWhile isspace_c).reverse

/-- The header-relevant request state: stored key/value pairs and
`header_count`. -/
structure ReqP where
  headers : List (List Char × List Char)
  header_count : Nat
deriving DecidableEq, Repr

/-- The request right after `request_init`. -/
def reqP0 : ReqP := ⟨[], 0⟩

/-- `parse_header_field(req_co)`: reject when `header_count` has reached
`MAX_HEADERS` (the `Too many headers` branch), else require a colon, store
the key and the whitespace-trimmed value, and increment `header_count`.
`none` models the `-1` return with `state = ERROR`. -/
def parse_header_field (req : ReqP) (line : List Char) : Option ReqP :=
  if MAX_HEADERS ≤ req.header_count then none
  else
    match strchr_colon line with
    | none => none
    | some (key, after) =>
      let value := trim_trailing (skip_leading after)
      some ⟨req.headers ++ [(key, value)], req.header_count + 1⟩

/-- The `HEADERS` phase of `parse_http` over the request's successive
non-empty header lines; the terminating blank line then yields `DONE`. -/
def parse_header_lines : ReqP → List (List Char) → Option ReqP
  | req, [] => some req
  | req, line :: rest =>
    match parse_header_field req line with
    | none => none
    | some req' => parse_header_lines req' rest

/-- What the coroutine entry function does with the parser verdict for the
header section (`request_handler/entry.c`): on `-1` it calls
`send_error(client_fd, 400, NULL, 0, w)` (note the literal `0` for
keep-alive), sets `keep_alive = 0`, breaks both loops and reaches
`cm_close_connection`; on `1` the request goes to the middleware
pipeline. -/
inductive EntryParseOutcome where
  | accepted (req : ReqP)
  | badRequest (resp : ErrorResponse)
deriving DecidableEq, Repr

def entry_header_phase (lines : List (List Char)) : EntryParseOutcome :=
  match parse_header_lines reqP0 lines with
  | some req => .accepted req
  | none => .badRequest (send_error 400 none false)

/-! ## `request_cleanup` (`request_handler.c`, lines 27-49)

Heap pointers are abstract `Nat` ids; the live heap is the `Finset` of
allocated ids; `free` on a non-NULL pointer removes it, `free(NULL)` is a
no-op.  The line buffer is modelled by its valid contents (`memset 0`
makes it empty). -/

inductive RequestState where
  | NEW
  | RL_METHOD
  | RL_URI
  | RL_VERSION
  | HEADERS
  | BODY_START
  | DONE
  | ERROR
deriving DecidableEq, Repr

structure CRequest where
  state : RequestState
  method : Option Nat
  uri : Option Nat
  version : Option Nat
  headers : List (Option Nat × Option Nat)
  header_count : Nat
  line_buf : List Char
  line_len : Nat
deriving DecidableEq, Repr

/-- `request_init(req)`: `memset(req, 0, sizeof(Request)); req->state = NEW;`
— all pointers NULL, all counters 0, the 100 header slots zeroed, the line
buffer empty. -/
def request_init : CRequest :=
  { state := .NEW
    method := none
    uri := none
    version := none
    headers := List.replicate MAX_HEADERS (none, none)
    header_count := 0
    line_buf := []
    line_len := 0 }

/-- `free(p)`: removes an allocated id; `free(NULL)` does nothing. -/
def free_ptr (h : Finset Nat) : Option Nat → Finset Nat
  | none => h
  | some p => h.erase p

/-- `request_cleanup(req)`: free `method`, `uri`, `version`, then the key
and value of each of the first `header_count` header slots, then
`request_init(req)`. -/
def request_cleanup (h : Finset Nat) (req : CRequest) : Finset Nat × CRequest :=
  let h1 := free_ptr h req.method
  let h2 := free_ptr h1 req.uri
  let h3 := free_ptr h2 req.version
  let h4 := (req.headers.take req.header_count).foldl
    (fun acc kv => free_ptr (free_ptr acc kv.1) kv.2) h3
  (h4, request_init)

/-! ## Concrete fixtures used to evaluate the development on real inputs -/

/-- A worker with two coroutines parked on fd 3 — one recorded as waiting
for read, one for write — an empty ready queue, and the `RDY_LIFO` policy
`worker_init` configures. -/
def worker_example : WorkerSt :=
  { fd_table := fun g => if g = 3 then [⟨1, 3, .read⟩, ⟨2, 3, .write⟩] else []
    ready := []
    policy := .lifo }

/-- An epoll event for fd 3 carrying only `EPOLLOUT`. -/
def event_example : EpollEvent := ⟨3, false, false, true⟩

/-- A filesystem in which `./public/a` and `./public/b` are directories,
so `stat("./public/a/../b")` succeeds and reports a directory. -/
def fs_dotdot_example : String → Option FileStat := fun p =>
  if p = "./public/a/../b" ∨ p = "./public/a" ∨ p = "./public/b" then
    some ⟨true, false, 0⟩
  else none

/-- A filesystem in which `./public/docs` is a directory containing
`index.html`. -/
def fs_docs_example : String → Option FileStat := fun p =>
  if p = "./public/docs" then some ⟨true, false, 0⟩
  else if p = "./public/docs/index.html" then some ⟨false, true, 120⟩
  else none

/-- A heap with five live allocations. -/
def heap_example : Finset Nat := {1, 2, 3, 4, 10}

/-- A parsed request owning allocations 1 (method), 2 (uri), 3 (version)
and 4 (the single counted header's key); allocation 10 sits in a header
slot beyond `header_count` and is not owned. -/
def req_example : CRequest :=
  { state := .DONE
    method := some 1
    uri := some 2
    version := some 3
    headers := (some 4, none) :: (none, some 10) ::
      List.replicate (MAX_HEADERS - 2) (none, none)
    header_count := 1
    line_buf := ['x']
    line_len := 1 }

/-! ## Theorems -/

theorem add_to_ready_fifo {A : Type} (q : List A) (co : A) :
    add_to_ready .fifo q co = q ++ [co] := by
  cases q <;> rfl

theorem add_to_ready_lifo {A : Type} (q : List A) (co : A) :
    add_to_ready .lifo q co = co :: q := by
  cases q <;> rfl

theorem enqueue_batch_fifo {A : Type} (q batch : List A) :
    enqueue_batch .fifo q batch = q ++ batch := by
  induction batch generalizing q with
  | nil => simp [enqueue_batch]
  | cons b bs ih =>
    simp only [enqueue_batch, List.foldl_cons] at *
    rw [add_to_ready_fifo, ih, List.append_assoc]
    rfl

theorem enqueue_batch_lifo {A : Type} (q batch : List A) :
    enqueue_batch .lifo q batch = batch.reverse ++ q := by
  induction batch generalizing q with
  | nil => simp [enqueue_batch]
  | cons b bs ih =>
    simp only [enqueue_batch, List.foldl_cons] at *
    rw [add_to_ready_lifo, ih]
    simp

theorem mem_enqueue_batch {A : Type} (p : Policy) (q batch : List A) (x : A) :
    x ∈ enqueue_batch p q batch ↔ x ∈ q ∨ x ∈ batch := by
  cases p with
  | fifo => rw [enqueue_batch_fifo]; simp
  | lifo => rw [enqueue_batch_lifo]; simp; tauto

theorem apply_ops_not_mem (fd : Int) (ops : List NotifierOp)
    (registered : Finset Int) (h : fd ∉ registered)
    (hops : ∀ op ∈ ops, op ≠ NotifierOp.add fd) :
    fd ∉ apply_ops registered ops := by
  induction ops generalizing registered with
  | nil => exact h
  | cons op rest ih =>
    have hop := hops op (List.mem_cons_self op rest)
    have hrest : ∀ o ∈ rest, o ≠ NotifierOp.add fd := fun o ho =>
      hops o (List.mem_cons_of_mem op ho)
    cases op with
    | add g =>
      have hg : g ≠ fd := fun he => hop (by rw [he])
      exact ih (insert g registered) (by
        simp only [Finset.mem_insert, not_or]
        exact ⟨fun he => hg he.symm, h⟩) hrest
    | del g =>
      exact ih (registered.erase g) (fun hm => h (Finset.mem_of_mem_erase hm)) hrest

theorem recv_async_timeout_iff (start : ℚ) (timeout_ms : ℤ)
    (attempts : List RecvAttempt) :
    recv_async start timeout_ms attempts = some RecvOutcome.timeout ↔
      timeout_run start timeout_ms attempts := by
  induction attempts with
  | nil =>
    simp only [recv_async, timeout_run]
    constructor
    · intro h; cases h
    · rintro ⟨pre, a, post, h, -⟩
      exact absurd h (by simp)
  | cons a rest ih =>
    cases ha : a.res with
    | ok n =>
      simp only [recv_async, ha, timeout_run]
      constructor
      · intro h; cases h
      · rintro ⟨pre, b, post, heq, hpre, hb, -⟩
        cases pre with
        | nil =>
          rw [List.nil_append] at heq
          cases heq
          rw [ha] at hb; cases hb
        | cons c pre' =>
          rw [List.cons_append] at heq
          injection heq with h1 _
          have := (hpre c (by simp)).1
          rw [← h1, ha] at this; cases this
    | err =>
      simp only [recv_async, ha, timeout_run]
      constructor
      · intro h; cases h
      · rintro ⟨pre, b, post, heq, hpre, hb, -⟩
        cases pre with
        | nil =>
          rw [List.nil_append] at heq
          cases heq
          rw [ha] at hb; cases hb
        | cons c pre' =>
          rw [List.cons_append] at heq
          injection heq with h1 _
          have := (hpre c (by simp)).1
          rw [← h1, ha] at this; cases this
    | wouldBlock =>
      simp only [recv_async, ha]
      by_cases hto : (timeout_ms : ℚ) ≤ a.now - start
      · simp only [if_pos hto, timeout_run]
        constructor
        · intro _
          exact ⟨[], a, rest, by simp, by simp, ha, hto⟩
        · intro _; trivial
      · simp only [if_neg hto]
        rw [ih]
        constructor
        · rintro ⟨pre, b, post, heq, hpre, hb, hbto⟩
          refine ⟨a :: pre, b, post, by rw [heq, List.cons_append], ?_, hb, hbto⟩
          intro c hc
          rcases List.mem_cons.mp hc with hc | hc
          · exact hc ▸ ⟨ha, lt_of_not_le hto⟩
          · exact hpre c hc
        · rintro ⟨pre, b, post, heq, hpre, hb, hbto⟩
          cases pre with
          | nil =>
            rw [List.nil_append] at heq
            injection heq with h1 h2
            rw [← h1] at hb hbto
            exact absurd hbto hto
          | cons c pre' =>
            rw [List.cons_append] at heq
            injection heq with h1 h2
            exact ⟨pre', b, post, h2, fun d hd => hpre d (by simp [hd]), hb, hbto⟩

theorem send_async_loop_completed_le (len cursor yields : Nat)
    (evs : List SendResult)
    (h : (send_async_loop len cursor yields evs).exit = SendExit.completed) :
    len ≤ (send_async_loop len cursor yields evs).sent := by
  induction evs generalizing cursor yields with
  | nil =>
    by_cases hc : len ≤ cursor
    · simp [send_async_loop, hc]
    · simp [send_async_loop, hc] at h
  | cons e rest ih =>
    by_cases hc : len ≤ cursor
    · simp [send_async_loop, hc]
    · cases e with
      | sent n =>
        by_cases hn : 0 < n
        · rw [send_async_loop] at h ⊢
          simp only [if_neg hc, if_pos hn] at h ⊢
          exact ih _ _ h
        · simp [send_async_loop, hc, hn] at h
      | wouldBlock =>
        rw [send_async_loop] at h ⊢
        simp only [if_neg hc] at h ⊢
        exact ih _ _ h
      | permError => simp [send_async_loop, hc] at h

theorem send_async_loop_valid_completed (len cursor yields : Nat)
    (evs : List SendResult) (hv : send_env_valid len cursor evs)
    (hc : cursor ≤ len)
    (h : (send_async_loop len cursor yields evs).exit = SendExit.completed) :
    (send_async_loop len cursor yields evs).sent = len := by
  induction evs generalizing cursor yields with
  | nil =>
    by_cases hlc : len ≤ cursor
    · simp [send_async_loop, hlc, Nat.le_antisymm hc hlc]
    · simp [send_async_loop, hlc] at h
  | cons e rest ih =>
    by_cases hlc : len ≤ cursor
    · simp [send_async_loop, hlc, Nat.le_antisymm hc hlc]
    · cases e with
      | sent n =>
        by_cases hn : 0 < n
        · rw [send_async_loop] at h ⊢
          simp only [if_neg hlc, if_pos hn] at h ⊢
          exact ih _ _ hv.2 (by have := hv.1; omega) h
        · simp [send_async_loop, hlc, hn] at h
      | wouldBlock =>
        rw [send_async_loop] at h ⊢
        simp only [if_neg hlc] at h ⊢
        exact ih _ _ hv hc h
      | permError => simp [send_async_loop, hlc] at h

theorem wake_fd_fd_table_self (w : WorkerSt) (fd : Int)
    (h0 : 0 ≤ fd) (h1 : fd < (FD_SETSIZE : Int)) :
    (wake_fd w fd).fd_table fd = [] := by
  have hcond : ¬ (fd < 0 ∨ (FD_SETSIZE : Int) ≤ fd) := by omega
  unfold wake_fd
  rw [if_neg hcond]
  have hinv : ∀ (l : List Coro) (st : WorkerSt), st.fd_table fd = [] →
      (l.foldl (fun st co =>
        { st with ready := add_to_ready st.policy st.ready (reset_coro co) }) st).fd_table fd = [] := by
    intro l
    induction l with
    | nil => intro st hst; exact hst
    | cons c cs ih => intro st hst; exact ih _ hst
  exact hinv _ _ (by simp)

theorem wake_fd_fd_table_other (w : WorkerSt) (fd g : Int)
    (hg : g ≠ fd) :
    (wake_fd w fd).fd_table g = w.fd_table g := by
  unfold wake_fd
  by_cases hcond : fd < 0 ∨ (FD_SETSIZE : Int) ≤ fd
  · rw [if_pos hcond]
  · rw [if_neg hcond]
    have hinv : ∀ (l : List Coro) (st : WorkerSt), st.fd_table g = w.fd_table g →
        (l.foldl (fun st co =>
          { st with ready := add_to_ready st.policy st.ready (reset_coro co) }) st).fd_table g = w.fd_table g := by
      intro l
      induction l with
      | nil => intro st hst; exact hst
      | cons c cs ih => intro st hst; exact ih _ hst
    exact hinv _ _ (by simp [hg])

theorem wake_fd_ready (w : WorkerSt) (fd : Int)
    (h0 : 0 ≤ fd) (h1 : fd < (FD_SETSIZE : Int)) :
    (wake_fd w fd).ready =
      enqueue_batch w.policy w.ready ((w.fd_table fd).map reset_coro) := by
  have hcond : ¬ (fd < 0 ∨ (FD_SETSIZE : Int) ≤ fd) := by omega
  unfold wake_fd
  rw [if_neg hcond]
  have hinv : ∀ (l : List Coro) (st : WorkerSt), st.policy = w.policy →
      (l.foldl (fun st co =>
        { st with ready := add_to_ready st.policy st.ready (reset_coro co) }) st).ready =
      enqueue_batch w.policy st.ready (l.map reset_coro) := by
    intro l
    induction l with
    | nil => intro st _; simp [enqueue_batch]
    | cons c cs ih =>
      intro st hst
      simp only [List.foldl_cons, List.map_cons, enqueue_batch, List.foldl_cons]
      rw [ih { st with ready := add_to_ready st.policy st.ready (reset_coro c) } hst]
      simp only [enqueue_batch]
      rw [hst]
  exact hinv _ _ (by simp)

theorem wake_fd_policy (w : WorkerSt) (fd : Int) :
    (wake_fd w fd).policy = w.policy := by
  unfold wake_fd
  by_cases hcond : fd < 0 ∨ (FD_SETSIZE : Int) ≤ fd
  · rw [if_pos hcond]
  · rw [if_neg hcond]
    have hinv : ∀ (l : List Coro) (st : WorkerSt), st.policy = w.policy →
        (l.foldl (fun st co =>
          { st with ready := add_to_ready st.policy st.ready (reset_coro co) }) st).policy = w.policy := by
      intro l
      induction l with
      | nil => intro st hst; exact hst
      | cons c cs ih => intro st hst; exact ih _ hst
    exact hinv _ _ (by simp)

theorem rr_count_add (s W w m n : Nat) :
    rr_count s W w (m + n) = rr_count s W w m + rr_count (s + m) W w n := by
  unfold rr_count
  rw [List.range_add, List.countP_append, List.countP_map]
  congr 1
  apply List.countP_congr
  intro k _
  simp [Function.comp, dispatch_target, Nat.add_assoc]

theorem rr_count_shift (s W w n : Nat) :
    rr_count (s + W) W w n = rr_count s W w n := by
  unfold rr_count
  apply List.countP_congr
  intro k _
  have : s + W + k = s + k + W := by omega
  simp [dispatch_target, this, Nat.add_mod_right]

/-- In any window of `W` consecutive dispatches, exactly one value `k` has
`(s + k) % W = w`. -/
theorem mod_hit_iff (s W w k : Nat) (hW : 0 < W) (hw : w < W) (hk : k < W) :
    (s + k) % W = w ↔ k = (w + W - s % W) % W := by
  have he : s % W < W := Nat.mod_lt s hW
  have h1 : (s + k) % W = (s % W + k) % W := by
    conv_lhs => rw [Nat.add_mod]
    rw [Nat.mod_eq_of_lt hk]
  rw [h1]
  by_cases hew : s % W ≤ w
  · have ho : (w + W - s % W) % W = w - s % W := by
      have h2 : w + W - s % W = (w - s % W) + W := by omega
      rw [h2, Nat.add_mod_right, Nat.mod_eq_of_lt (by omega)]
    rw [ho]
    by_cases hek : s % W + k < W
    · rw [Nat.mod_eq_of_lt hek]; omega
    · rw [Nat.mod_eq_sub_mod (by omega), Nat.mod_eq_of_lt (by omega)]; omega
  · have ho : (w + W - s % W) % W = w + W - s % W := Nat.mod_eq_of_lt (by omega)
    rw [ho]
    by_cases hek : s % W + k < W
    · rw [Nat.mod_eq_of_lt hek]; omega
    · rw [Nat.mod_eq_sub_mod (by omega), Nat.mod_eq_of_lt (by omega)]; omega

theorem rr_count_period (s W w : Nat) (hw : w < W) :
    rr_count s W w W = 1 := by
  have hW : 0 < W := by omega
  unfold rr_count
  have hcongr : (List.range W).countP (fun k => dispatch_target s W k == w) =
      (List.range W).countP (fun k => k == (w + W - s % W) % W) := by
    apply List.countP_congr
    intro k hkmem
    have hk : k < W := List.mem_range.mp hkmem
    simp only [dispatch_target, beq_iff_eq]
    exact mod_hit_iff s W w k hW hw hk
  rw [hcongr]
  have hcount : (List.range W).countP (fun k => k == (w + W - s % W) % W) =
      (List.range W).count ((w + W - s % W) % W) := rfl
  rw [hcount, List.count_eq_of_nodup (List.nodup_range W)]
  have : (w + W - s % W) % W ∈ List.range W :=
    List.mem_range.mpr (Nat.mod_lt _ hW)
  rw [if_pos this]

theorem rr_count_le_one (s W w r : Nat) (hw : w < W) (hr : r ≤ W) :
    rr_count s W w r ≤ 1 := by
  have hsub : List.Sublist (List.range r) (List.range W) := List.range_sublist.mpr hr
  calc rr_count s W w r ≤ rr_count s W w W := hsub.countP_le _
    _ = 1 := rr_count_period s W w hw

theorem rr_count_full_periods (s W w q r : Nat) (hw : w < W) :
    rr_count s W w (q * W + r) = q + rr_count (s + q * W) W w r := by
  induction q generalizing s with
  | zero => simp
  | succ p ih =>
    have hq : (p + 1) * W + r = W + (p * W + r) := by ring
    rw [hq, rr_count_add, rr_count_period s W w hw, ih (s + W)]
    have : s + W + p * W = s + (p + 1) * W := by ring
    rw [this]
    omega

/-- Over `N = q*W + r` consecutive dispatches (`r < W`), worker `w < W`
receives `q + c` connections with `c ≤ 1`, and `c = 0` when `r = 0`. -/
theorem rr_count_split (s W w q r : Nat) (hw : w < W) (hr : r < W) :
    rr_count s W w (q * W + r) = q + rr_count (s + q * W) W w r ∧
      rr_count (s + q * W) W w r ≤ 1 := by
  exact ⟨rr_count_full_periods s W w q r hw,
    rr_count_le_one _ W w r hw (Nat.le_of_lt hr)⟩

theorem parse_header_lines_append (req : ReqP) (xs ys : List (List Char)) :
    parse_header_lines req (xs ++ ys) =
      match parse_header_lines req xs with
      | none => none
      | some r => parse_header_lines r ys := by
  induction xs generalizing req with
  | nil => simp [parse_header_lines]
  | cons x xs ih =>
    simp only [List.cons_append, parse_header_lines]
    cases parse_header_field req x with
    | none => rfl
    | some r => exact ih r

theorem parse_header_lines_ok (lines : List (List Char)) (req : ReqP)
    (hcolon : ∀ l ∈ lines, (strchr_colon l).isSome)
    (hcount : req.header_count + lines.length ≤ MAX_HEADERS) :
    ∃ r, parse_header_lines req lines = some r ∧
      r.header_count = req.header_count + lines.length := by
  induction lines generalizing req with
  | nil => exact ⟨req, rfl, by simp⟩
  | cons l rest ih =>
    have hc : (strchr_colon l).isSome := hcolon l (by simp)
    obtain ⟨kv, hkv⟩ := Option.isSome_iff_exists.mp hc
    have hlt : ¬ MAX_HEADERS ≤ req.header_count := by
      simp only [List.length_cons] at hcount
      omega
    have hfield : parse_header_field req l =
        some ⟨req.headers ++ [(kv.1, trim_trailing (skip_leading kv.2))],
          req.header_count + 1⟩ := by
      cases kv with
      | mk k v =>
        simp only [parse_header_field, if_neg hlt, hkv]
    obtain ⟨r, hr, hrc⟩ := ih
      ⟨req.headers ++ [(kv.1, trim_trailing (skip_leading kv.2))],
        req.header_count + 1⟩
      (fun l hl => hcolon l (by simp [hl]))
      (by
        show req.header_count + 1 + rest.length ≤ MAX_HEADERS
        simp only [List.length_cons] at hcount
        omega)
    refine ⟨r, ?_, ?_⟩
    · simp only [parse_header_lines, hfield]
      exact hr
    · rw [hrc]
      simp only [List.length_cons]
      show req.header_count + 1 + rest.length = req.header_count + (rest.length + 1)
      omega

theorem free_ptr_not_mem (h : Finset Nat) (o : Option Nat) (p : Nat)
    (hp : p ∉ h) : p ∉ free_ptr h o := by
  cases o with
  | none => exact hp
  | some q => exact fun hm => hp (Finset.mem_of_mem_erase hm)

theorem free_ptr_self (h : Finset Nat) (p : Nat) : p ∉ free_ptr h (some p) :=
  Finset.not_mem_erase p h

theorem fold_free_not_mem (l : List (Option Nat × Option Nat))
    (acc : Finset Nat) (p : Nat) (hp : p ∉ acc) :
    p ∉ l.foldl (fun acc kv => free_ptr (free_ptr acc kv.1) kv.2) acc := by
  induction l generalizing acc with
  | nil => exact hp
  | cons kv rest ih =>
    exact ih _ (free_ptr_not_mem _ _ _ (free_ptr_not_mem _ _ _ hp))

theorem fold_free_erases (l : List (Option Nat × Option Nat))
    (acc : Finset Nat) (kv : Option Nat × Option Nat) (hkv : kv ∈ l) :
    (∀ p, kv.1 = some p →
      p ∉ l.foldl (fun acc kv => free_ptr (free_ptr acc kv.1) kv.2) acc) ∧
    (∀ p, kv.2 = some p →
      p ∉ l.foldl (fun acc kv => free_ptr (free_ptr acc kv.1) kv.2) acc) := by
  induction l generalizing acc with
  | nil => cases hkv
  | cons x rest ih =>
    rcases List.mem_cons.mp hkv with heq | hmem
    · subst heq
      constructor
      · intro p hp
        rw [List.foldl_cons]
        apply fold_free_not_mem
        apply free_ptr_not_mem
        rw [hp]
        exact free_ptr_self _ _
      · intro p hp
        rw [List.foldl_cons]
        apply fold_free_not_mem
        rw [hp]
        exact free_ptr_self _ _
    · exact ⟨fun p hp => (ih _ hmem).1 p hp, fun p hp => (ih _ hmem).2 p hp⟩

/-! ## Claim theorems -/

/-- C1 (amended to fds in `[0, FD_SETSIZE)`): `cm_close_connection` performs
exactly `epoll_ctl(EPOLL_CTL_DEL)`, then `shutdown(SHUT_WR)`, then `close`,
in that order; afterwards `fd` is no longer registered, so no readiness
event for `fd` can be delivered, now or after any later notifier
operations that do not re-register `fd`. -/
theorem cm_close_connection_ordered (registered : Finset Int) (fd : Int)
    (h0 : 0 ≤ fd) (h1 : fd < (FD_SETSIZE : Int)) :
    (cm_close_connection registered fd).1 =
      [CloseStep.epollCtlDel fd, CloseStep.shutdownWr fd, CloseStep.closeFd fd] ∧
    ¬ can_deliver (cm_close_connection registered fd).2 fd ∧
    (∀ ops, (∀ op ∈ ops, op ≠ NotifierOp.add fd) →
      ¬ can_deliver (apply_ops (cm_close_connection registered fd).2 ops) fd) := by
  have hcond : ¬ (fd < 0 ∨ (FD_SETSIZE : Int) ≤ fd) := by omega
  unfold cm_close_connection
  rw [if_neg hcond]
  refine ⟨rfl, Finset.not_mem_erase fd registered, ?_⟩
  intro ops hops
  exact apply_ops_not_mem fd ops _ (Finset.not_mem_erase fd registered) hops

/-- Witness for C1's theorem at `fd = 5`, `registered = {5}`. -/
theorem cm_close_connection_ordered_witness :
    (cm_close_connection {5} 5).1 =
      [CloseStep.epollCtlDel 5, CloseStep.shutdownWr 5, CloseStep.closeFd 5] ∧
    ¬ can_deliver (cm_close_connection {5} 5).2 5 := by
  have h := cm_close_connection_ordered {5} 5 (by decide) (by decide)
  exact ⟨h.1, h.2.1⟩

/-- C1 counterexample: the claim quantifies over every fd, but for
`fd = 1024 = FD_SETSIZE` — which `worker_loop` registers with epoll
without any bound check — `cm_close_connection` returns without performing
any of its three steps, and a readiness event for the fd is still
deliverable afterwards. -/
theorem cm_close_connection_counterexample :
    (cm_close_connection {1024} 1024).1 = [] ∧
    can_deliver (cm_close_connection {1024} 1024).2 1024 := by
  decide

/-- C2: `recv_async` returns a received count `n ≥ 0` immediately; when
the receive would block it returns `ETIMEDOUT` exactly when the monotonic
time elapsed since the `start` captured at first entry is at least
`timeout_ms`, and otherwise yields on `(fd, WAIT_READ)` and retries with
the SAME `start` (the deadline is not reset on wake); globally, a run
returns `Timeout` iff some would-block check sees elapsed ≥ `timeout_ms`
after earlier would-block checks all saw elapsed < `timeout_ms`. -/
theorem recv_async_timeout_spec (start : ℚ) (timeout_ms : ℤ) :
    (∀ now n rest,
      recv_async start timeout_ms (⟨RecvResult.ok n, now⟩ :: rest) =
        some (RecvOutcome.bytes n)) ∧
    (∀ now rest, (timeout_ms : ℚ) ≤ now - start →
      recv_async start timeout_ms (⟨RecvResult.wouldBlock, now⟩ :: rest) =
        some RecvOutcome.timeout) ∧
    (∀ now rest, now - start < (timeout_ms : ℚ) →
      recv_async start timeout_ms (⟨RecvResult.wouldBlock, now⟩ :: rest) =
        recv_async start timeout_ms rest) ∧
    (∀ attempts,
      recv_async start timeout_ms attempts = some RecvOutcome.timeout ↔
        timeout_run start timeout_ms attempts) := by
  refine ⟨fun now n rest => rfl, fun now rest h => ?_, fun now rest h => ?_,
    fun attempts => recv_async_timeout_iff start timeout_ms attempts⟩
  · simp [recv_async, if_pos h]
  · simp [recv_async, if_neg (not_le.mpr h)]

/-- Witness for C2's theorem: with `timeout_ms = 100` and entry at time 0,
a would-block at 40 ms yields and retries, and a would-block at 150 ms
returns `Timeout`; an immediate 7-byte receive returns 7. -/
theorem recv_async_timeout_spec_witness :
    recv_async 0 100 [⟨RecvResult.ok 7, 3⟩] = some (RecvOutcome.bytes 7) ∧
    recv_async 0 100 [⟨RecvResult.wouldBlock, 40⟩, ⟨RecvResult.wouldBlock, 150⟩] =
      some RecvOutcome.timeout := by
  have h := recv_async_timeout_spec 0 100
  refine ⟨h.1 3 7 [], ?_⟩
  rw [h.2.2.1 40 [⟨RecvResult.wouldBlock, 150⟩] (by norm_num)]
  exact h.2.1 150 [] (by norm_num)

/-- C3 (amended): `add_to_ready` appends at the tail under `RDY_FIFO` and
pushes at the front under `RDY_LIFO`; consequently a wakeup batch is later
dequeued by `schedule` in insertion order under FIFO, but in REVERSE
insertion order under LIFO (before any coroutines already queued). -/
theorem ready_policy_spec (q batch : List Nat) (co : Nat) :
    add_to_ready .fifo q co = q ++ [co] ∧
    add_to_ready .lifo q co = co :: q ∧
    drain_order (enqueue_batch .fifo q batch) = drain_order q ++ batch ∧
    drain_order (enqueue_batch .lifo q batch) = batch.reverse ++ drain_order q :=
  ⟨add_to_ready_fifo q co, add_to_ready_lifo q co,
    enqueue_batch_fifo q batch, enqueue_batch_lifo q batch⟩

/-- C3 counterexample: under the LIFO policy a batch enqueued in order
`[1, 2]` into an empty ready queue is dequeued as `[2, 1]`, not in its
insertion order — refuting the claim that insertion order is preserved
under both policies. -/
theorem ready_policy_counterexample :
    drain_order (enqueue_batch Policy.lifo ([] : List Nat) [1, 2]) = [2, 1] ∧
    drain_order (enqueue_batch Policy.lifo ([] : List Nat) [1, 2]) ≠ [1, 2] := by
  decide

/-- C4 (amended): `send_async` keeps a cursor `bytes_sent`, advances it on
each positive `send` return, yields on `(fd, WAIT_WRITE)` and retries when
the send would block, keeps looping until the cursor reaches `len` (and
under a well-behaved `send` a completed run has sent exactly `len`), and
on a permanent error aborts the remaining send immediately — but the C
function returns `void`: no failure flag reaches the caller (the error is
only `perror`-logged). -/
theorem send_async_spec (len cursor yields : Nat) (rest : List SendResult) :
    (len ≤ cursor → ∀ evs,
      send_async_loop len cursor yields evs = ⟨cursor, yields, .completed⟩) ∧
    (cursor < len → ∀ n, 0 < n →
      send_async_loop len cursor yields (.sent n :: rest) =
        send_async_loop len (cursor + n) yields rest) ∧
    (cursor < len →
      send_async_loop len cursor yields (.wouldBlock :: rest) =
        send_async_loop len cursor (yields + 1) rest) ∧
    (cursor < len →
      send_async_loop len cursor yields (.permError :: rest) =
        ⟨cursor, yields, .aborted⟩) ∧
    (∀ evs, send_env_valid len cursor evs → cursor ≤ len →
      (send_async_loop len cursor yields evs).exit = .completed →
      (send_async_loop len cursor yields evs).sent = len) ∧
    (∀ evs, send_async len evs = ()) := by
  have hnot : ∀ c, c < len → ¬ len ≤ c := fun c hc => by omega
  refine ⟨?_, ?_, ?_, ?_, ?_, fun evs => rfl⟩
  · intro hc evs
    cases evs <;> simp [send_async_loop, hc]
  · intro hc n hn
    simp [send_async_loop, hnot cursor hc, hn]
  · intro hc
    simp [send_async_loop, hnot cursor hc]
  · intro hc
    simp [send_async_loop, hnot cursor hc]
  · intro evs hv hc hdone
    exact send_async_loop_valid_completed len cursor yields evs hv hc hdone

/-- Witness for C4's theorem: sending 4 bytes through a partial send, a
would-block yield and a final send completes with cursor 4; a permanent
error after 1 byte aborts at cursor 1. -/
theorem send_async_spec_witness :
    send_async_loop 4 0 0 [.sent 2, .wouldBlock, .sent 2] =
      ⟨4, 1, SendExit.completed⟩ ∧
    send_async_loop 4 0 0 [.sent 1, .permError] = ⟨1, 0, SendExit.aborted⟩ := by
  constructor
  · rw [(send_async_spec 4 0 0 [.wouldBlock, .sent 2]).2.1 (by norm_num) 2
      (by norm_num)]
    rw [(send_async_spec 4 2 0 [.sent 2]).2.2.1 (by norm_num)]
    rw [(send_async_spec 4 2 1 []).2.1 (by norm_num) 2 (by norm_num)]
    exact (send_async_spec 4 4 1 []).1 (by norm_num) []
  · rw [(send_async_spec 4 0 0 [.permError]).2.1 (by norm_num) 1 (by norm_num)]
    exact (send_async_spec 4 1 0 []).2.2.2.1 (by norm_num)

/-- C4 counterexample: the claim says a permanent send error is surfaced
to the caller via a failure flag, but `send_async` returns `void` — a run
that aborts with a permanent error after sending 0 of 4 bytes hands the
caller exactly the same value as a run that sends all 4 bytes. -/
theorem send_async_counterexample :
    send_async_loop 4 0 0 [.permError] = ⟨0, 0, SendExit.aborted⟩ ∧
    send_async 4 [.permError] = send_async 4 [.sent 4] := by
  exact ⟨rfl, rfl⟩

/-- C5: the dispatch target advances by one modulo the number of workers
on each accepted connection, and over any `N` consecutive dispatches to
`W` workers each worker `w` receives `⌊N/W⌋` or `⌈N/W⌉ = (N + W - 1)/W`
connections. -/
theorem round_robin_fair (s W w N k : Nat) (hW : 0 < W) (hw : w < W) :
    dispatch_target s W (k + 1) = (dispatch_target s W k + 1) % W ∧
    (rr_count s W w N = N / W ∨ rr_count s W w N = (N + W - 1) / W) := by
  constructor
  · unfold dispatch_target
    have h1 : s + (k + 1) = s + k + 1 := by omega
    have h2 : (s + k + 1) % W = ((s + k) % W + 1 % W) % W := Nat.add_mod _ _ _
    have h3 : ((s + k) % W + 1) % W = ((s + k) % W % W + 1 % W) % W :=
      Nat.add_mod _ _ _
    rw [h1, h2, h3, Nat.mod_mod_of_dvd _ dvd_rfl]
  · have hrlt : N % W < W := Nat.mod_lt _ hW
    obtain ⟨heq, hle⟩ := rr_count_split s W w (N / W) (N % W) hw hrlt
    have hN : N / W * W + N % W = N := by
      rw [Nat.mul_comm]
      exact Nat.div_add_mod N W
    rw [hN] at heq
    have hdm : W * (N / W) + N % W = N := Nat.div_add_mod N W
    rcases Nat.le_one_iff_eq_zero_or_eq_one.mp hle with hc | hc
    · left
      rw [heq, hc]
      omega
    · right
      have hr0 : N % W ≠ 0 := by
        intro h0
        rw [h0] at hc
        have hz : rr_count (s + N / W * W) W w 0 = 0 := rfl
        rw [hz] at hc
        cases hc
      have hceil : (N + W - 1) / W = N / W + 1 := by
        have e1 : W * (N / W + 1) + (N % W - 1) =
            W * (N / W) + N % W + W - 1 := by
          rw [Nat.mul_add, Nat.mul_one]
          omega
        have e2 : N + W - 1 = W * (N / W + 1) + (N % W - 1) := by
          rw [e1]
          omega
        rw [e2, Nat.mul_add_div hW]
        rw [Nat.div_eq_of_lt (show N % W - 1 < W by omega)]
      rw [heq, hc, hceil]

/-- Witness for C5's theorem: with 3 workers, counter at 0 and 7 accepted
connections, worker 1 receives 2 = ⌊7/3⌋ of them, and the target after
dispatch 0 is `(target 0 + 1) % 3`. -/
theorem round_robin_fair_witness :
    rr_count 0 3 1 7 = 2 ∧
    (rr_count 0 3 1 7 = 7 / 3 ∨ rr_count 0 3 1 7 = (7 + 3 - 1) / 3) ∧
    dispatch_target 0 3 1 = (dispatch_target 0 3 0 + 1) % 3 := by
  have h := round_robin_fair 0 3 1 7 0 (by decide) (by decide)
  exact ⟨by decide, h.2, h.1⟩

/-- C8: `wake_fd` detaches the whole waiter list of the fd (leaving the
wait slot empty and other slots untouched), resets every woken
coroutine's awaited fd to `-1` and its wait kind to `WAIT_READ`, and
enqueues them all ready — regardless of the wait direction each one had
recorded; and `worker_loop` invokes exactly this `wake_fd` for any
non-`EPOLLRDHUP` event with `EPOLLIN` or `EPOLLOUT` set, never consulting
the parked tasks' wait kinds. -/
theorem wake_fd_spec (w : WorkerSt) (fd : Int) (ev : EpollEvent)
    (h0 : 0 ≤ fd) (h1 : fd < (FD_SETSIZE : Int))
    (hrd : ev.rdhup = false) (hio : ev.readable = true ∨ ev.writable = true) :
    (wake_fd w fd).fd_table fd = [] ∧
    (∀ g, g ≠ fd → (wake_fd w fd).fd_table g = w.fd_table g) ∧
    (wake_fd w fd).ready =
      enqueue_batch w.policy w.ready ((w.fd_table fd).map reset_coro) ∧
    (∀ co ∈ w.fd_table fd, reset_coro co ∈ (wake_fd w fd).ready ∧
      (reset_coro co).fd = -1 ∧ (reset_coro co).wait_type = WaitType.read) ∧
    dispatch_client_event w ev = (wake_fd w ev.fd, DispatchAction.woke) := by
  refine ⟨wake_fd_fd_table_self w fd h0 h1,
    fun g hg => wake_fd_fd_table_other w fd g hg,
    wake_fd_ready w fd h0 h1, ?_, ?_⟩
  · intro co hco
    refine ⟨?_, rfl, rfl⟩
    rw [wake_fd_ready w fd h0 h1, mem_enqueue_batch]
    exact Or.inr (List.mem_map_of_mem reset_coro hco)
  · unfold dispatch_client_event
    rw [hrd]
    have hb : (ev.readable || ev.writable) = true := by
      rcases hio with h | h <;> simp [h]
    simp [hb]

/-- Witness for C8's theorem: `worker_example` has one read-waiter and one
write-waiter parked on fd 3; a purely `EPOLLOUT` event (`event_example`)
dispatches to `wake_fd`, which empties the slot and enqueues both waiters
(LIFO: detached-list order reversed) with fd reset to -1 and wait kind
reset to `WAIT_READ`. -/
theorem wake_fd_spec_witness :
    (wake_fd worker_example 3).fd_table 3 = [] ∧
    (wake_fd worker_example 3).ready =
      [⟨2, -1, WaitType.read⟩, ⟨1, -1, WaitType.read⟩] ∧
    dispatch_client_event worker_example event_example =
      (wake_fd worker_example 3, DispatchAction.woke) := by
  have h := wake_fd_spec worker_example 3 event_example (by decide) (by decide)
    rfl (Or.inr rfl)
  refine ⟨h.1, ?_, h.2.2.2.2⟩
  rw [h.2.2.1]
  decide

theorem mime_lookup_split (L : List (List Char × String)) (d : String)
    (rest : List (Option (List Char) × String)) (ext : List Char) :
    mime_lookup ((L.map fun p => (some p.1, p.2)) ++ (none, d) :: rest) ext =
      match L.find? (fun p => ext = p.1) with
      | some p => p.2
      | none => mime_default := by
  induction L with
  | nil => rfl
  | cons p L ih =>
    simp only [List.map_cons, List.cons_append, mime_lookup]
    by_cases h : ext = p.1
    · simp [List.find?, h]
    · rw [if_neg h]
      have hd : decide (ext = p.1) = false := decide_eq_false h
      simp only [List.find?, hd]
      exact ih

/-- C9: `get_mime_type` agrees everywhere with the nine-extension map
(`.html .htm .css .js .png .jpg .jpeg .gif .txt`, defaulting to
`application/octet-stream`): the `.svg`, `.ico`, `.json` and `.map`
entries sit after the `NULL` sentinel of `mime_types[]` and are
unreachable by the lookup loop. -/
theorem get_mime_type_spec :
    (∀ path, get_mime_type path = mime_spec path) ∧
    get_mime_type "icon.svg".data = "application/octet-stream" ∧
    get_mime_type "favicon.ico".data = "application/octet-stream" ∧
    get_mime_type "data.json".data = "application/octet-stream" ∧
    get_mime_type "app.js.map".data = "application/octet-stream" ∧
    get_mime_type "index.html".data = "text/html" := by
  refine ⟨?_, by decide, by decide, by decide, by decide, by decide⟩
  intro path
  unfold get_mime_type mime_spec
  cases strrchr_dot path with
  | none => rfl
  | some ext =>
    show mime_lookup mime_types ext = mime_spec_lookup ext
    have htab : mime_types =
        (mime_spec_table.map fun p => (some p.1, p.2)) ++
          (none, "application/octet-stream") ::
            [(some ".svg".data, "image/svg+xml"),
             (some ".ico".data, "image/x-icon"),
             (some ".json".data, "application/json"),
             (some ".map".data, "application/json")] := by rfl
    rw [htab, mime_lookup_split]
    cases hf : mime_spec_table.find? (fun p => ext = p.1) with
    | none => simp [mime_spec_lookup, hf, mime_default]
    | some p => simp [mime_spec_lookup, hf]

/-- C6: the parser rejects the 101st header field — `parse_header_field`
fails as soon as `header_count` has reached `MAX_HEADERS = 100`, whatever
the line holds — so a request with 101 (colon-carrying) header lines is
`Malformed` and the coroutine entry answers with `send_error(fd, 400,
NULL, 0, w)` and closes the connection (`keep_alive` is cleared and
`cm_close_connection` follows); a request with at most 100 headers is
never rejected on account of the header count. -/
theorem header_limit_spec (lines : List (List Char))
    (hcolon : ∀ l ∈ lines, (strchr_colon l).isSome) :
    (lines.length ≤ MAX_HEADERS →
      ∃ r, parse_header_lines reqP0 lines = some r ∧
        r.header_count = lines.length) ∧
    (lines.length = MAX_HEADERS + 1 →
      (∃ r, parse_header_lines reqP0 (lines.take MAX_HEADERS) = some r ∧
        r.header_count = MAX_HEADERS ∧ ∀ l, parse_header_field r l = none) ∧
      entry_header_phase lines =
        EntryParseOutcome.badRequest (send_error 400 none false)) := by
  constructor
  · intro hlen
    obtain ⟨r, h1, h2⟩ := parse_header_lines_ok lines reqP0 hcolon
      (by simpa [reqP0] using hlen)
    exact ⟨r, h1, by simpa [reqP0] using h2⟩
  · intro hlen
    have htake : (lines.take MAX_HEADERS).length = MAX_HEADERS := by
      rw [List.length_take]
      omega
    obtain ⟨r, hr, hrc⟩ := parse_header_lines_ok (lines.take MAX_HEADERS) reqP0
      (fun l hl => hcolon l (List.mem_of_mem_take hl))
      (by rw [htake]; simp [reqP0])
    have hrc' : r.header_count = MAX_HEADERS := by
      rw [hrc, htake]
      simp [reqP0]
    have hfail : ∀ l, parse_header_field r l = none := by
      intro l
      simp [parse_header_field, hrc']
    refine ⟨⟨r, hr, hrc', hfail⟩, ?_⟩
    have hdlen : (lines.drop MAX_HEADERS).length = 1 := by
      rw [List.length_drop]
      omega
    obtain ⟨l101, hl101⟩ : ∃ l, lines.drop MAX_HEADERS = [l] := by
      cases hd : lines.drop MAX_HEADERS with
      | nil => rw [hd] at hdlen; simp at hdlen
      | cons a t =>
        rw [hd, List.length_cons] at hdlen
        have ht : t = [] := List.eq_nil_of_length_eq_zero (by omega)
        exact ⟨a, by rw [ht]⟩
    have hnone : parse_header_lines reqP0 lines = none := by
      conv_lhs => rw [← List.take_append_drop MAX_HEADERS lines]
      rw [parse_header_lines_append, hr, hl101]
      simp [parse_header_lines, hfail l101]
    simp [entry_header_phase, hnone]

/-- Witness for C6's theorem: 101 copies of the header line `a:b` produce
the 400 bad-request answer with `Connection: close`, while 100 copies
parse fully with `header_count = 100`. -/
theorem header_limit_spec_witness :
    entry_header_phase (List.replicate (MAX_HEADERS + 1) "a:b".data) =
      EntryParseOutcome.badRequest (send_error 400 none false) ∧
    (∃ r, parse_header_lines reqP0 (List.replicate MAX_HEADERS "a:b".data) =
      some r ∧ r.header_count = MAX_HEADERS) := by
  have hc1 : ∀ l ∈ List.replicate (MAX_HEADERS + 1) "a:b".data,
      (strchr_colon l).isSome := by
    intro l hl
    rw [List.eq_of_mem_replicate hl]
    decide
  have hc2 : ∀ l ∈ List.replicate MAX_HEADERS "a:b".data,
      (strchr_colon l).isSome := by
    intro l hl
    rw [List.eq_of_mem_replicate hl]
    decide
  have h1 := header_limit_spec (List.replicate (MAX_HEADERS + 1) "a:b".data) hc1
  have h2 := header_limit_spec (List.replicate MAX_HEADERS "a:b".data) hc2
  refine ⟨(h1.2 (by simp)).2, ?_⟩
  obtain ⟨r, hr, hrc⟩ := h2.1 (by simp)
  exact ⟨r, hr, by rw [hrc]; simp⟩

/-- C7 (amended: the URI must additionally avoid the substring `..`,
which the middleware rejects with 400 before looking at the filesystem):
a GET or HEAD request whose decoded URI maps to an existing directory
under `./public` and does not end in `/` is answered with
`301 Moved Permanently`, `Location` = URI + `/`, `Content-Length: 0`, and
no file is served. -/
theorem static_dir_redirect (fs : String → Option FileStat)
    (method uri : String) (keep_alive : Bool)
    (hm : method = "GET" ∨ method = "HEAD")
    (hdd : contains_dotdot uri = false)
    (hne : uri ≠ "")
    (hsl : uri.data.getLast? ≠ some '/')
    (st : FileStat) (hst : fs (static_path uri) = some st)
    (hdir : st.isDir = true) :
    handle_static_file_middleware fs method uri keep_alive =
      MwResponse.redirect (uri ++ "/") 0
        (if keep_alive then "keep-alive" else "close") := by
  have hlen : 0 < uri.length := by
    rcases uri with ⟨l⟩
    cases l with
    | nil => exact absurd rfl hne
    | cons c cs => simp [String.length]
  have hm' : ¬ (method ≠ "GET" ∧ method ≠ "HEAD") := by
    rcases hm with h | h <;> simp [h]
  unfold handle_static_file_middleware
  rw [if_neg hm', hdd]
  simp only [Bool.false_eq_true, if_false, hst, hdir, if_true]
  rw [if_pos ⟨hlen, hsl⟩]
  rfl

/-- Witness for C7's theorem: URI `/docs` where `./public/docs/` is a
directory: the response is `301` with `Location: /docs/` and
`Content-Length: 0`. -/
theorem static_dir_redirect_witness :
    handle_static_file_middleware fs_docs_example "GET" "/docs" true =
      MwResponse.redirect "/docs/" 0 "keep-alive" := by
  have h := static_dir_redirect fs_docs_example "GET" "/docs" true (Or.inl rfl)
    (by decide) (by decide) (by decide) ⟨true, false, 0⟩ (by decide) rfl
  exact h.trans (by decide)

/-- C7 counterexample: the URI `/a/../b` names the existing directory
`./public/b` (via `./public/a/../b`) and does not end in `/`, yet the
middleware answers 400 — the `strstr(uri, "..")` guard fires before any
`stat` — not the 301 redirect the claim requires. -/
theorem static_dir_redirect_counterexample :
    handle_static_file_middleware fs_dotdot_example "GET" "/a/../b" true =
      MwResponse.errorResp (send_error 400 none true) ∧
    handle_static_file_middleware fs_dotdot_example "GET" "/a/../b" true ≠
      MwResponse.redirect "/a/../b/" 0 "keep-alive" := by
  decide

/-- C10: after `request_cleanup` the `Request` equals the freshly
initialized state (`state = NEW`, null pointers, `header_count = 0`,
zeroed header slots, empty line buffer); the `method`, `uri` and
`version` allocations and the key/value allocations of every counted
header slot are gone from the heap; and running `request_cleanup` again
on the result changes nothing — it is an idempotent, safe no-op
(`free(NULL)` on every field). -/
theorem request_cleanup_spec (h : Finset Nat) (req : CRequest) :
    (request_cleanup h req).2 = request_init ∧
    (∀ p, req.method = some p → p ∉ (request_cleanup h req).1) ∧
    (∀ p, req.uri = some p → p ∉ (request_cleanup h req).1) ∧
    (∀ p, req.version = some p → p ∉ (request_cleanup h req).1) ∧
    (∀ kv ∈ req.headers.take req.header_count,
      (∀ p, kv.1 = some p → p ∉ (request_cleanup h req).1) ∧
      (∀ p, kv.2 = some p → p ∉ (request_cleanup h req).1)) ∧
    request_cleanup (request_cleanup h req).1 (request_cleanup h req).2 =
      request_cleanup h req := by
  have hrw : (request_cleanup h req).1 =
      (req.headers.take req.header_count).foldl
        (fun acc kv => free_ptr (free_ptr acc kv.1) kv.2)
        (free_ptr (free_ptr (free_ptr h req.method) req.uri) req.version) := rfl
  refine ⟨rfl, ?_, ?_, ?_, ?_, rfl⟩
  · intro p hp
    rw [hrw]
    apply fold_free_not_mem
    apply free_ptr_not_mem
    apply free_ptr_not_mem
    rw [hp]
    exact free_ptr_self _ _
  · intro p hp
    rw [hrw]
    apply fold_free_not_mem
    apply free_ptr_not_mem
    rw [hp]
    exact free_ptr_self _ _
  · intro p hp
    rw [hrw]
    apply fold_free_not_mem
    rw [hp]
    exact free_ptr_self _ _
  · intro kv hkv
    rw [hrw]
    exact fold_free_erases _ _ kv hkv

/-- Witness for C10's theorem on `req_example` over `heap_example`: the
struct is reset to `request_init`, the owned allocations 1 and 4 are
freed, the unowned allocation 10 survives (final heap `{10}`), and a
second `request_cleanup` is a no-op. -/
theorem request_cleanup_spec_witness :
    (request_cleanup heap_example req_example).2 = request_init ∧
    1 ∉ (request_cleanup heap_example req_example).1 ∧
    4 ∉ (request_cleanup heap_example req_example).1 ∧
    (request_cleanup heap_example req_example).1 = {10} ∧
    request_cleanup (request_cleanup heap_example req_example).1
        (request_cleanup heap_example req_example).2 =
      request_cleanup heap_example req_example := by
  have h := request_cleanup_spec heap_example req_example
  refine ⟨h.1, h.2.1 1 rfl, ?_, by decide, h.2.2.2.2.2⟩
  exact (h.2.2.2.2.1 (some 4, none) (by decide)).1 4 rfl

end HttpServer
